import Mathlib

/-!
Verification development for a two-component repository: a FastAPI proxy over
the Sleeper fantasy-sports API (src/api/sleeper.py) and a one-shot cache
loader that upserts the full player dataset into a local SQLite file
(src/db/scripts/cache_sleeper_players.py).

The embedding is shallow: Python dict records become structures with Option
fields (None becomes Option.none), the SQLite players table becomes a list of
rows with an explicit upsert mirroring the ON CONFLICT clause, and the run of
the loader becomes a pure function over the database state with an explicit
fault parameter modelling a storage failure inside the transaction.
-/

/-- An upstream player record as consumed by the loader: the fields read via
p.get in cache_sleeper_players.py, each Option because .get returns None for
a missing key. String-typed JSON values are modelled as String, numeric ones
as Int, and fantasy_positions as a list of strings. -/
structure PlayerRec where
  player_id : Option String
  first_name : Option String
  last_name : Option String
  full_name : Option String
  search_full_name : Option String
  search_first_name : Option String
  search_last_name : Option String
  team : Option String
  position : Option String
  status : Option String
  sport : Option String
  number : Option Int
  age : Option Int
  depth_chart_position : Option Int
  depth_chart_order : Option Int
  years_exp : Option Int
  fantasy_positions : Option (List String)
deriving DecidableEq

/-- A row of the players table, i.e. the 19-tuple of bound parameters built in
main of cache_sleeper_players.py. Every slot is Option because a bound
parameter may be NULL; the schema in ensure_db additionally declares
player_id PRIMARY KEY and data_json, updated_at NOT NULL. -/
structure Row where
  player_id : Option String
  first_name : Option String
  last_name : Option String
  full_name : Option String
  search_full_name : Option String
  search_first_name : Option String
  search_last_name : Option String
  team : Option String
  position : Option String
  status : Option String
  sport : Option String
  number : Option Int
  age : Option Int
  depth_chart_position : Option Int
  depth_chart_order : Option Int
  years_exp : Option Int
  fantasy_positions_json : Option String
  data_json : Option String
  updated_at : Option Int
deriving DecidableEq

/-- The database state: the players table as an ordered list of rows and the
meta table as an ordered key-value list. -/
structure DB where
  players : List Row
  meta : List (String × String)
deriving DecidableEq

/-- Python str.join with a separator, as used for the space-joined name and
the serialized fantasy_positions list. -/
def py_join (sep : String) : List String → String
  | [] => ""
  | [x] => x
  | x :: y :: rest => x ++ sep ++ py_join sep (y :: rest)

/-- Serialization of an optional string field inside the modelled json.dumps
output. -/
def opt_str : Option String → String
  | none => "null"
  | some s => s

/-- Serialization of an optional integer field inside the modelled json.dumps
output. -/
def opt_int : Option Int → String
  | none => "null"
  | some i => toString i

/-- Serialization of the fantasy_positions list, modelling json.dumps of a
list of strings. -/
def dumps_list (xs : List String) : String := py_join "," xs

/-- Models json.dumps of the full record with compact separators: a
deterministic serialization that is a function of the record alone. -/
def dumps (p : PlayerRec) : String :=
  py_join ","
    [opt_str p.player_id, opt_str p.first_name, opt_str p.last_name,
     opt_str p.full_name, opt_str p.search_full_name,
     opt_str p.search_first_name, opt_str p.search_last_name,
     opt_str p.team, opt_str p.position, opt_str p.status, opt_str p.sport,
     opt_int p.number, opt_int p.age, opt_int p.depth_chart_position,
     opt_int p.depth_chart_order, opt_int p.years_exp,
     opt_str (p.fantasy_positions.map dumps_list)]

/-- The full_name computation of the loader, line 109 of the source:
space-join of the truthy ones among first and last name, with Python or
falling back to the upstream full_name field when the join is empty. -/
def full_name_of (p : PlayerRec) : Option String :=
  let joined :=
    py_join " " (([p.first_name, p.last_name].filterMap id).filter (fun s => s != ""))
  if joined = "" then p.full_name else some joined

/-- The primary-key derivation str(p.get("player_id") or player_id): the
record field when present and truthy (a nonempty string), else the outer
mapping key. -/
def derived_key (outer : String) (p : PlayerRec) : String :=
  match p.player_id with
  | some s => if s = "" then outer else s
  | none => outer

/-- The 19-parameter row built for one feed entry, mirroring the rows.append
tuple in main (outer mapping key, record, fetch timestamp). -/
def prepare_row (player_id : String) (p : PlayerRec) (now : Int) : Row :=
  { player_id := some (derived_key player_id p)
    first_name := p.first_name
    last_name := p.last_name
    full_name := full_name_of p
    search_full_name := p.search_full_name
    search_first_name := p.search_first_name
    search_last_name := p.search_last_name
    team := p.team
    position := p.position
    status := p.status
    sport := p.sport
    number := p.number
    age := p.age
    depth_chart_position := p.depth_chart_position
    depth_chart_order := p.depth_chart_order
    years_exp := p.years_exp
    fantasy_positions_json := p.fantasy_positions.map dumps_list
    data_json := some (dumps p)
    updated_at := some now }

/-- The prepared rows of a whole run: one per entry of the fetched mapping, in
iteration order, all stamped with the single fetch timestamp. -/
def rows_of (feed : List (String × PlayerRec)) (now : Int) : List Row :=
  feed.map (fun kp => prepare_row kp.1 kp.2 now)

/-- SQLite primary-key conflict between two stored key values: NULL never
conflicts with anything. -/
def keyconf (a b : Option String) : Bool :=
  match a, b with
  | some x, some y => x == y
  | _, _ => false

/-- Whether the table already holds a row whose key conflicts with k. -/
def hasKey (tbl : List Row) (k : Option String) : Bool :=
  tbl.any (fun q => keyconf q.player_id k)

/-- One INSERT ... ON CONFLICT(player_id) DO UPDATE SET of the loader: on a
key conflict every column of the conflicting row is overwritten with the
excluded values (the key itself is unchanged but equal), otherwise the new
row is appended. -/
def upsert (tbl : List Row) (r : Row) : List Row :=
  if hasKey tbl r.player_id then
    tbl.map (fun q => if keyconf q.player_id r.player_id then r else q)
  else
    tbl ++ [r]

/-- The executemany over all prepared rows, in order. -/
def upsert_all (tbl : List Row) (rows : List Row) : List Row :=
  rows.foldl upsert tbl

/-- One INSERT ... ON CONFLICT(key) DO UPDATE of the meta table. -/
def meta_set (m : List (String × String)) (k v : String) : List (String × String) :=
  if m.any (fun kv => kv.1 == k) then
    m.map (fun kv => if kv.1 == k then (k, v) else kv)
  else
    m ++ [(k, v)]

/-- mark_cached from the source: writes the three meta keys players_cached,
players_cached_at and players_count, in that order. timeText models the
formatted time.ctime string. -/
def mark_cached (m : List (String × String)) (count : Nat) (timeText : String) :
    List (String × String) :=
  meta_set (meta_set (meta_set m "players_cached" "1") "players_cached_at" timeText)
    "players_count" (toString count)

/-- One row upsert as a transactional step on the database state. -/
def players_step (r : Row) : DB → DB :=
  fun db => { db with players := upsert db.players r }

/-- The three meta writes of mark_cached as transactional steps. -/
def meta_steps (count : Nat) (timeText : String) : List (DB → DB) :=
  [fun db => { db with meta := meta_set db.meta "players_cached" "1" },
   fun db => { db with meta := meta_set db.meta "players_cached_at" timeText },
   fun db => { db with meta := meta_set db.meta "players_count" (toString count) }]

/-- Everything executed between BEGIN and commit in main: the row upserts in
order, then the three meta writes. -/
def txn_steps (rows : List Row) (timeText : String) : List (DB → DB) :=
  rows.map players_step ++ meta_steps rows.length timeText

/-- Sequential application of transactional steps with no failure. -/
def apply_steps (steps : List (DB → DB)) (db : DB) : DB :=
  steps.foldl (fun st s => s st) db

/-- Sequential application with an injected storage fault: fault counts the
steps that still succeed before the failing one; none means no failure
occurs. Returns none exactly when the fault hits inside the step list. -/
def apply_until (steps : List (DB → DB)) (fault : Option Nat) (db : DB) : Option DB :=
  match steps, fault with
  | [], _ => some db
  | _ :: _, some 0 => none
  | s :: rest, some (n + 1) => apply_until rest (some n) (s db)
  | s :: rest, none => apply_until rest none (s db)

/-- The main function of the loader, over an already-ensured schema: fetched
is the outcome of fetch_players (raise_for_status makes an upstream error an
exception, modelled as Except.error, in which case nothing has been written);
on success the prepared rows and meta writes run inside one transaction, and
a storage fault inside it triggers conn.rollback followed by re-raising, so
the committed state stays the pre-run state. The pair returned is the
committed database together with the propagated error, if any. -/
def main_run (db0 : DB) (fetched : Except String (List (String × PlayerRec)))
    (now : Int) (timeText : String) (fault : Option Nat) : DB × Option String :=
  match fetched with
  | Except.error e => (db0, some e)
  | Except.ok feed =>
    let rows := rows_of feed now
    match apply_until (txn_steps rows timeText) fault db0 with
    | none => (db0, some "storage failure")
    | some db1 => (db1, none)

/-- A fault-free successful run, used to phrase the idempotence claim. -/
def run_once (db : DB) (feed : List (String × PlayerRec)) (t : Int) (s : String) : DB :=
  (main_run db (Except.ok feed) t s none).1

/-- The derived primary keys of a fetched mapping, in order. -/
def feed_keys (feed : List (String × PlayerRec)) : List String :=
  feed.map (fun kp => derived_key kp.1 kp.2)

/-- The last prepared row of the list whose key conflicts with k: the value
that last write wins leaves for that key. -/
def final_write (k : Option String) : List Row → Option Row
  | [] => none
  | r :: rs =>
    match final_write k rs with
    | some r2 => some r2
    | none => if keyconf k r.player_id then some r else none

/-- Overwrite only the updated_at column of a row. -/
def retime (t : Int) (r : Row) : Row :=
  { r with updated_at := some t }

/-- Equality of two rows on every column except updated_at. -/
def row_eq_mod_time (a b : Row) : Prop :=
  a.player_id = b.player_id ∧ a.first_name = b.first_name ∧
  a.last_name = b.last_name ∧ a.full_name = b.full_name ∧
  a.search_full_name = b.search_full_name ∧
  a.search_first_name = b.search_first_name ∧
  a.search_last_name = b.search_last_name ∧
  a.team = b.team ∧ a.position = b.position ∧ a.status = b.status ∧
  a.sport = b.sport ∧ a.number = b.number ∧ a.age = b.age ∧
  a.depth_chart_position = b.depth_chart_position ∧
  a.depth_chart_order = b.depth_chart_order ∧ a.years_exp = b.years_exp ∧
  a.fantasy_positions_json = b.fantasy_positions_json ∧
  a.data_json = b.data_json

/-- The not-null part of the players schema that claim C7 states: player_id
and the raw-payload copy are never NULL. -/
def row_not_null_ok (r : Row) : Prop :=
  r.player_id.isSome ∧ r.data_json.isSome

/-! Proxy service (src/api/sleeper.py). -/

/-- A JSON value, the decoded form of an upstream response body. -/
inductive JsonVal where
  | null : JsonVal
  | bool (b : Bool) : JsonVal
  | num (n : Int) : JsonVal
  | str (s : String) : JsonVal
  | arr (xs : List JsonVal) : JsonVal
  | obj (fields : List (String × JsonVal)) : JsonVal

/-- An upstream HTTP response: status code, raw body text, and its decoded
JSON value (resp.json()). -/
structure Response where
  statusCode : Nat
  text : String
  jsonBody : JsonVal

/-- sleeper_get from the source, over the outcome of the outbound GET: a
transport failure (httpx.RequestError) becomes a 502 HTTPException embedding
the exception text; an upstream status of at least 400 becomes an
HTTPException with exactly the upstream status and raw body text; otherwise
the decoded JSON body is returned. Errors are pairs of status code and
detail. -/
def sleeper_get (result : Except String Response) : Except (Nat × String) JsonVal :=
  match result with
  | Except.error e => Except.error (502, "Could not reach Sleeper: " ++ e)
  | Except.ok r =>
    if 400 ≤ r.statusCode then Except.error (r.statusCode, r.text)
    else Except.ok r.jsonBody

/-- The four proxied endpoints with their path parameters. -/
inductive Endpoint where
  | user (user_id : String) : Endpoint
  | userLeagues (user_id sport season : String) : Endpoint
  | league (league_id : String) : Endpoint
  | leagueRosters (league_id : String) : Endpoint

/-- The upstream path each handler passes to sleeper_get, transcribed from
the f-strings of get_user, get_user_leagues and the two get_league handlers
in the source. -/
def upstream_path : Endpoint → String
  | Endpoint.user u => "/user/" ++ u
  | Endpoint.userLeagues u sp se => "/user/" ++ u ++ "/leagues/" ++ sp ++ "/" ++ se
  | Endpoint.league l => "/league/" ++ l
  | Endpoint.leagueRosters l => "/league/" ++ l ++ "/rosters"

/-- The upstream-path column of the table in section 4.1 of the spec,
transcribed from the spec words for the refinement claim C4. -/
def spec_upstream_path : Endpoint → String
  | Endpoint.user u => "/user/" ++ u
  | Endpoint.userLeagues u sp se => "/user/" ++ u ++ "/leagues/" ++ sp ++ "/" ++ se
  | Endpoint.league l => "/league/" ++ l
  | Endpoint.leagueRosters l => "/league/" ++ l ++ "/rosters"

/-- The full route set of the app: the root route plus the four proxied
endpoints. -/
inductive Route where
  | root : Route
  | api (e : Endpoint) : Route

/-- The application: root returns a constant greeting object and never
consults the upstream; every other route forwards one GET to its upstream
path through sleeper_get. upstream is the oracle giving the outcome of an
outbound GET for each upstream path. -/
def app_handle (upstream : String → Except String Response) :
    Route → Except (Nat × String) JsonVal
  | Route.root => Except.ok (JsonVal.obj [("message", JsonVal.str "Hello World")])
  | Route.api e => sleeper_get (upstream (upstream_path e))

/-! Concrete sample data used to instantiate theorems with hypotheses. -/

/-- An upstream record with every field absent. -/
def emptyRec : PlayerRec :=
  ⟨none, none, none, none, none, none, none, none, none, none, none, none,
   none, none, none, none, none⟩

/-- The Tom Brady record of the spec test properties. -/
def bradyRec : PlayerRec :=
  { emptyRec with player_id := some "1", first_name := some "Tom", last_name := some "Brady" }

/-- A record carrying only an upstream-provided full_name. -/
def fullOnlyRec : PlayerRec :=
  { emptyRec with full_name := some "X Y" }

/-- A stale players-table row left over from an earlier run: its key Z never
appears in the sample feed below. -/
def stale_row : Row :=
  { player_id := some "Z"
    first_name := none
    last_name := none
    full_name := none
    search_full_name := none
    search_first_name := none
    search_last_name := none
    team := none
    position := none
    status := none
    sport := none
    number := none
    age := none
    depth_chart_position := none
    depth_chart_order := none
    years_exp := none
    fantasy_positions_json := none
    data_json := some "payload"
    updated_at := some 5 }

/-- A database that already holds the stale row and no meta entries. -/
def stale_db : DB := ⟨[stale_row], []⟩

/-- A one-entry feed whose only derived key is A. -/
def sample_feed : List (String × PlayerRec) := [("A", emptyRec)]

/-- A database already holding a row with key A and an old timestamp, so that
a run over sample_feed overwrites it. -/
def preexist_db : DB := ⟨[{ stale_row with player_id := some "A" }], []⟩

/-- A record whose own player_id field is the string 7. -/
def rec7 : PlayerRec := { emptyRec with player_id := some "7" }

/-- A second record with the same player_id field 7 but a different team, so
that its derived key collides with rec7 under any outer keys. -/
def rec7b : PlayerRec := { emptyRec with player_id := some "7", team := some "NE" }

/-! Theorems. -/

/-- C4: for all valid path parameters, each of the four endpoints constructs
exactly the upstream path given by literal substitution into the table of
section 4.1 of the spec. -/
theorem c4_upstream_paths : ∀ e : Endpoint, upstream_path e = spec_upstream_path e := by
  intro e
  cases e <;> rfl

/-- C10: the proxy exposes a fifth route beyond the four documented
endpoints: GET / always returns the JSON object with message Hello World,
independently of the upstream oracle, so the upstream is never contacted. -/
theorem c10_root_route (u1 u2 : String → Except String Response) :
    app_handle u1 Route.root =
      Except.ok (JsonVal.obj [("message", JsonVal.str "Hello World")]) ∧
    app_handle u1 Route.root = app_handle u2 Route.root :=
  ⟨rfl, rfl⟩

/-- C5: for every endpoint, when the upstream response has status at least
400 the proxy raises an error carrying exactly the upstream status code and
the raw body text, with no distinction between 4xx and 5xx; when the status
is below 400 the decoded JSON body is returned. -/
theorem c5_upstream_error_passthrough (upstream : String → Except String Response)
    (e : Endpoint) (r : Response) (h : upstream (upstream_path e) = Except.ok r) :
    (400 ≤ r.statusCode →
      app_handle upstream (Route.api e) = Except.error (r.statusCode, r.text)) ∧
    (r.statusCode < 400 →
      app_handle upstream (Route.api e) = Except.ok r.jsonBody) := by
  constructor
  · intro h4
    simp [app_handle, sleeper_get, h, h4]
  · intro h4
    simp [app_handle, sleeper_get, h, Nat.not_le.mpr h4]

/-- Witness for C5 at the spec test case: upstream 404 with body not found is
passed through as a 404 error with that body as the detail. -/
theorem c5_upstream_error_passthrough_witness :
    app_handle (fun _ => Except.ok (Response.mk 404 "not found" JsonVal.null))
      (Route.api (Endpoint.league "123")) = Except.error (404, "not found") :=
  (c5_upstream_error_passthrough _ (Endpoint.league "123")
    (Response.mk 404 "not found" JsonVal.null) rfl).1 (by decide)

/-- C6: for every endpoint, a transport failure on the outbound request is
surfaced as a fixed 502 error whose message embeds the underlying exception
text. -/
theorem c6_transport_502 (upstream : String → Except String Response)
    (e : Endpoint) (msg : String) (h : upstream (upstream_path e) = Except.error msg) :
    app_handle upstream (Route.api e) =
      Except.error (502, "Could not reach Sleeper: " ++ msg) := by
  simp [app_handle, sleeper_get, h]

/-- Witness for C6: an unreachable host gives 502 on a concrete endpoint. -/
theorem c6_transport_502_witness :
    app_handle (fun _ => Except.error "connection refused") (Route.api (Endpoint.user "u1")) =
      Except.error (502, "Could not reach Sleeper: " ++ "connection refused") :=
  c6_transport_502 _ (Endpoint.user "u1") "connection refused" rfl

/-- C1: the full_name of a prepared row is the space-joined concatenation of
first and last name when both are present (nonempty), and when neither is
present it falls back to the upstream-provided full_name field. -/
theorem c1_full_name_rule (p : PlayerRec) (outer : String) (now : Int) :
    (∀ f l, p.first_name = some f → p.last_name = some l → f ≠ "" → l ≠ "" →
      (prepare_row outer p now).full_name = some (f ++ " " ++ l)) ∧
    (p.first_name = none → p.last_name = none →
      (prepare_row outer p now).full_name = p.full_name) := by
  constructor
  · intro f l hf hl hf0 hl0
    show full_name_of p = some (f ++ " " ++ l)
    rw [full_name_of, hf, hl]
    simp only [List.filterMap_cons, List.filterMap_nil, id]
    rw [List.filter_cons_of_pos, List.filter_cons_of_pos, List.filter_nil]
    · have hne : f ++ " " ++ l ≠ "" := by
        intro hcon
        have hlen := congrArg String.length hcon
        simp [String.length_append] at hlen
        exact absurd hlen.1.2 (by decide)
      simp [py_join, hne]
    · simp [hl0]
    · simp [hf0]
  · intro h1 h2
    show full_name_of p = p.full_name
    rw [full_name_of, h1, h2]
    simp [py_join]

/-- Witness for C1 at the two spec test records: first and last name join to
Tom Brady, and a record with only an upstream full_name keeps X Y. -/
theorem c1_full_name_rule_witness :
    (prepare_row "1" bradyRec 0).full_name = some ("Tom" ++ " " ++ "Brady") ∧
    (prepare_row "9" fullOnlyRec 0).full_name = some "X Y" := by
  constructor
  · exact (c1_full_name_rule bradyRec "1" 0).1 "Tom" "Brady" rfl rfl (by decide) (by decide)
  · exact ((c1_full_name_rule fullOnlyRec "9" 0).2 rfl rfl).trans rfl

/-- C9: the stored primary key is the record player_id field when present and
truthy, else the outer mapping key, and two entries whose derived keys
coincide collapse to a single row with the later entry winning. -/
theorem c9_key_derivation (outer k1 k2 : String) (p p1 p2 : PlayerRec) (now : Int) :
    ((prepare_row outer p now).player_id = some (derived_key outer p)) ∧
    (∀ s, p.player_id = some s → s ≠ "" → derived_key outer p = s) ∧
    ((p.player_id = none ∨ p.player_id = some "") → derived_key outer p = outer) ∧
    (derived_key k1 p1 = derived_key k2 p2 →
      upsert_all [] [prepare_row k1 p1 now, prepare_row k2 p2 now] =
        [prepare_row k2 p2 now]) := by
  refine ⟨rfl, ?_, ?_, ?_⟩
  · intro s hs hs0
    simp [derived_key, hs, hs0]
  · rintro (h | h) <;> simp [derived_key, h]
  · intro h
    simp [upsert_all, upsert, hasKey, keyconf, prepare_row, h]

/-- Witness for C9: a record with player_id field 7 keeps key 7 regardless of
the outer key, and two colliding entries collapse to the second row. -/
theorem c9_key_derivation_witness :
    derived_key "a" rec7 = "7" ∧
    upsert_all [] [prepare_row "a" rec7 0, prepare_row "b" rec7b 0] =
      [prepare_row "b" rec7b 0] := by
  constructor
  · exact (c9_key_derivation "a" "a" "b" rec7 rec7 rec7b 0).2.1 "7" rfl (by decide)
  · exact (c9_key_derivation "a" "a" "b" rec7 rec7 rec7b 0).2.2.2 (by decide)

/-- Fault-free step application reaches the full fold of the steps. -/
theorem apply_until_none_fault (steps : List (DB → DB)) :
    ∀ db : DB, apply_until steps none db = some (apply_steps steps db) := by
  induction steps with
  | nil => intro db; rfl
  | cons s rest ih =>
    intro db
    simpa [apply_until, apply_steps, List.foldl] using ih (s db)

/-- Whenever step application completes, its result is the full fold. -/
theorem apply_until_eq_apply_steps (steps : List (DB → DB)) :
    ∀ (fault : Option Nat) (db d : DB),
      apply_until steps fault db = some d → d = apply_steps steps db := by
  induction steps with
  | nil =>
    intro fault db d h
    have hd : d = db := by
      cases fault <;> simpa [apply_until] using h.symm
    simp [hd, apply_steps]
  | cons s rest ih =>
    intro fault db d h
    match fault with
    | none =>
      have := ih none (s db) d (by simpa [apply_until] using h)
      simpa [apply_steps, List.foldl] using this
    | some 0 => simp [apply_until] at h
    | some (n + 1) =>
      have := ih (some n) (s db) d (by simpa [apply_until] using h)
      simpa [apply_steps, List.foldl] using this

/-- Folding a concatenation of step lists folds them in sequence. -/
theorem apply_steps_append (l1 l2 : List (DB → DB)) (db : DB) :
    apply_steps (l1 ++ l2) db = apply_steps l2 (apply_steps l1 db) := by
  simp [apply_steps, List.foldl_append]

/-- The row-upsert steps only change the players table, performing exactly
upsert_all. -/
theorem apply_steps_players (rows : List Row) : ∀ db : DB,
    apply_steps (rows.map players_step) db =
      { db with players := upsert_all db.players rows } := by
  induction rows with
  | nil => intro db; rfl
  | cons r rs ih =>
    intro db
    have h1 : apply_steps ((r :: rs).map players_step) db =
        apply_steps (rs.map players_step) (players_step r db) := by
      simp [apply_steps, List.foldl]
    rw [h1, ih (players_step r db)]
    rfl

/-- The three meta steps only change the meta table, performing exactly
mark_cached. -/
theorem apply_steps_meta (count : Nat) (timeText : String) (db : DB) :
    apply_steps (meta_steps count timeText) db =
      { db with meta := mark_cached db.meta count timeText } := rfl

/-- A fault-free run commits exactly the upserted players plus the three
meta keys. -/
theorem main_run_ok (db0 : DB) (feed : List (String × PlayerRec)) (now : Int)
    (timeText : String) :
    main_run db0 (Except.ok feed) now timeText none =
      ({ players := upsert_all db0.players (rows_of feed now),
         meta := mark_cached db0.meta (rows_of feed now).length timeText }, none) := by
  show (match apply_until (txn_steps (rows_of feed now) timeText) none db0 with
    | none => (db0, some "storage failure")
    | some db1 => (db1, none)) = _
  rw [apply_until_none_fault]
  rw [txn_steps, apply_steps_append, apply_steps_players, apply_steps_meta]

/-- C2: a run is all-or-nothing. If the run reports a failure, whether the
fetch failed or a storage fault hit anywhere inside the transaction, the
committed database is exactly the pre-run database; if it reports success,
the fetch succeeded, every fetched row was upserted into the players table
and the three meta keys were written. -/
theorem c2_all_or_nothing (db0 : DB) (fetched : Except String (List (String × PlayerRec)))
    (now : Int) (timeText : String) (fault : Option Nat) :
    ((main_run db0 fetched now timeText fault).2.isSome →
      (main_run db0 fetched now timeText fault).1 = db0) ∧
    ((main_run db0 fetched now timeText fault).2 = none →
      ∃ feed, fetched = Except.ok feed ∧
        (main_run db0 fetched now timeText fault).1.players =
          upsert_all db0.players (rows_of feed now) ∧
        (main_run db0 fetched now timeText fault).1.meta =
          mark_cached db0.meta (rows_of feed now).length timeText) := by
  match fetched with
  | Except.error e =>
    refine ⟨fun _ => rfl, fun h => absurd h (by simp [main_run])⟩
  | Except.ok feed =>
    cases hap : apply_until (txn_steps (rows_of feed now) timeText) fault db0 with
    | none =>
      constructor
      · intro _
        simp [main_run, hap]
      · intro h
        rw [show (main_run db0 (Except.ok feed) now timeText fault).2 = some "storage failure"
          from by simp [main_run, hap]] at h
        cases h
    | some d =>
      have hd : d = apply_steps (txn_steps (rows_of feed now) timeText) db0 :=
        apply_until_eq_apply_steps _ fault db0 d hap
      have hv : main_run db0 (Except.ok feed) now timeText fault = (d, none) := by
        simp [main_run, hap]
      constructor
      · intro hs
        rw [hv] at hs
        cases hs
      · intro _
        refine ⟨feed, rfl, ?_, ?_⟩ <;>
          rw [hv, hd, txn_steps, apply_steps_append, apply_steps_players, apply_steps_meta]

/-- Witness for C2: a storage fault at the first transactional step leaves a
concrete pre-populated database untouched, and a fault-free run on the same
input commits the upserted rows and meta keys. -/
theorem c2_all_or_nothing_witness :
    (main_run stale_db (Except.ok sample_feed) 10 "t" (some 0)).1 = stale_db ∧
    ∃ feed, (Except.ok sample_feed : Except String (List (String × PlayerRec))) =
        Except.ok feed ∧
      (main_run stale_db (Except.ok sample_feed) 10 "t" none).1.players =
        upsert_all stale_db.players (rows_of feed 10) ∧
      (main_run stale_db (Except.ok sample_feed) 10 "t" none).1.meta =
        mark_cached stale_db.meta (rows_of feed 10).length "t" := by
  constructor
  · exact (c2_all_or_nothing stale_db (Except.ok sample_feed) 10 "t" (some 0)).1 (by decide)
  · exact (c2_all_or_nothing stale_db (Except.ok sample_feed) 10 "t" none).2 (by decide)

/-- Conflicting keys are equal key values. -/
theorem keyconf_eq : ∀ {a b : Option String}, keyconf a b = true → a = b := by
  intro a b h
  cases a <;> cases b <;> simp_all [keyconf]

/-- A present key conflicts with itself. -/
theorem keyconf_refl : ∀ {a : Option String}, a.isSome → keyconf a a = true := by
  intro a h
  cases a <;> simp_all [keyconf]

/-- A conflicting upsert leaves the column of keys unchanged. -/
theorem upsert_keys_of_hasKey (tbl : List Row) (r : Row)
    (h : hasKey tbl r.player_id = true) :
    (upsert tbl r).map Row.player_id = tbl.map Row.player_id := by
  rw [upsert, if_pos h, List.map_map]
  apply List.map_congr_left
  intro q _
  show (if keyconf q.player_id r.player_id then r else q).player_id = q.player_id
  by_cases hc : keyconf q.player_id r.player_id = true
  · rw [if_pos hc]
    exact (keyconf_eq hc).symm
  · rw [if_neg hc]

/-- hasKey only depends on the column of keys. -/
theorem hasKey_eq_keys_any (tbl : List Row) (k : Option String) :
    hasKey tbl k = (tbl.map Row.player_id).any (fun a => keyconf a k) := by
  induction tbl with
  | nil => rfl
  | cons q qs ih =>
    rw [hasKey, List.any_cons, List.map_cons, List.any_cons]
    exact congrArg (fun b => keyconf q.player_id k || b) ih

/-- An upsert never removes a key from the table. -/
theorem hasKey_upsert_of (tbl : List Row) (r : Row) (k : Option String)
    (h : hasKey tbl k = true) : hasKey (upsert tbl r) k = true := by
  by_cases hr : hasKey tbl r.player_id = true
  · rw [hasKey_eq_keys_any, upsert_keys_of_hasKey tbl r hr, ← hasKey_eq_keys_any]
    exact h
  · rw [upsert, if_neg hr, hasKey, List.any_append]
    rw [hasKey] at h
    simp [h]

/-- A sequence of upserts never removes a key from the table. -/
theorem hasKey_upsert_all_of (rows : List Row) : ∀ (tbl : List Row) (k : Option String),
    hasKey tbl k = true → hasKey (upsert_all tbl rows) k = true := by
  induction rows with
  | nil => intro tbl k h; exact h
  | cons r rs ih =>
    intro tbl k h
    exact ih (upsert tbl r) k (hasKey_upsert_of tbl r k h)

/-- After upserting a row with a present key, that key is in the table. -/
theorem hasKey_upsert_self (tbl : List Row) (r : Row) (h : r.player_id.isSome) :
    hasKey (upsert tbl r) r.player_id = true := by
  by_cases hr : hasKey tbl r.player_id = true
  · exact hasKey_upsert_of tbl r _ hr
  · rw [upsert, if_neg hr, hasKey, List.any_append]
    simp [keyconf_refl h]

/-- Every present key of the upserted row list ends up in the table. -/
theorem hasKey_upsert_all_mem (rows : List Row) : ∀ (tbl : List Row) (r : Row),
    r ∈ rows → r.player_id.isSome → hasKey (upsert_all tbl rows) r.player_id = true := by
  induction rows with
  | nil => intro tbl r hr _; cases hr
  | cons x rs ih =>
    intro tbl r hr hs
    rcases List.mem_cons.mp hr with h1 | h2
    · subst h1
      exact hasKey_upsert_all_of rs (upsert tbl r) _ (hasKey_upsert_self tbl r hs)
    · exact ih (upsert tbl x) r h2 hs

/-- A member of an upserted table is the new row or an old row whose key does
not conflict with the new one. -/
theorem mem_upsert (tbl : List Row) (r q : Row) (h : q ∈ upsert tbl r) :
    q = r ∨ (q ∈ tbl ∧ keyconf q.player_id r.player_id = false) := by
  by_cases hr : hasKey tbl r.player_id = true
  · rw [upsert, if_pos hr] at h
    obtain ⟨q0, hq0, hfq⟩ := List.mem_map.mp h
    by_cases hc : keyconf q0.player_id r.player_id = true
    · rw [if_pos hc] at hfq
      exact Or.inl hfq.symm
    · rw [if_neg hc] at hfq
      subst hfq
      exact Or.inr ⟨hq0, by simpa using hc⟩
  · rw [upsert, if_neg hr] at h
    rcases List.mem_append.mp h with h1 | h2
    · right
      refine ⟨h1, ?_⟩
      by_contra hc
      have hc' : keyconf q.player_id r.player_id = true := by
        cases hcase : keyconf q.player_id r.player_id
        · exact absurd hcase hc
        · rfl
      exact hr (List.any_eq_true.mpr ⟨q, h1, hc'⟩)
    · exact Or.inl (by simpa using h2)

/-- A member of the table after a run of upserts is an old row or one of the
upserted rows. -/
theorem mem_upsert_all (rows : List Row) : ∀ (tbl : List Row) (q : Row),
    q ∈ upsert_all tbl rows → q ∈ tbl ∨ q ∈ rows := by
  induction rows with
  | nil => intro tbl q h; exact Or.inl h
  | cons r rs ih =>
    intro tbl q h
    rcases ih (upsert tbl r) q h with h1 | h2
    · rcases mem_upsert tbl r q h1 with h3 | ⟨h4, _⟩
      · exact Or.inr (by simp [h3])
      · exact Or.inl h4
    · exact Or.inr (List.mem_cons_of_mem r h2)

/-- Unfolding lemma for final_write on a cons. -/
theorem final_write_cons (k : Option String) (r : Row) (rs : List Row) :
    final_write k (r :: rs) =
      match final_write k rs with
      | some r2 => some r2
      | none => if keyconf k r.player_id then some r else none := rfl

/-- The final write for a key is one of the rows of the list. -/
theorem final_write_mem (k : Option String) : ∀ (rows : List Row) (r2 : Row),
    final_write k rows = some r2 → r2 ∈ rows := by
  intro rows
  induction rows with
  | nil => intro r2 h; simp [final_write] at h
  | cons r rs ih =>
    intro r2 h
    rw [final_write_cons] at h
    cases hf : final_write k rs with
    | some r3 =>
      rw [hf] at h
      simp at h
      exact List.mem_cons_of_mem r (h ▸ ih r3 hf)
    | none =>
      rw [hf] at h
      by_cases hc : keyconf k r.player_id = true
      · simp [hc] at h
        simp [h]
      · simp [hc] at h

/-- Retiming every row commutes with taking the final write. -/
theorem final_write_map_retime (t : Int) (k : Option String) : ∀ rows : List Row,
    final_write k (rows.map (retime t)) = (final_write k rows).map (retime t) := by
  intro rows
  induction rows with
  | nil => rfl
  | cons r rs ih =>
    rw [List.map_cons, final_write_cons, final_write_cons, ih]
    cases hf : final_write k rs with
    | some r3 => rfl
    | none =>
      show (if keyconf k (retime t r).player_id then some (retime t r) else none) =
        (if keyconf k r.player_id then some r else none).map (retime t)
      have hkey : (retime t r).player_id = r.player_id := rfl
      rw [hkey]
      by_cases hc : keyconf k r.player_id = true
      · simp [hc]
      · simp [hc]

/-- The final write over the prepared rows exists exactly for the derived
keys of the feed. -/
theorem final_write_rows_of_isSome (now : Int) (k : String) :
    ∀ feed : List (String × PlayerRec),
      ((final_write (some k) (rows_of feed now)).isSome = true ↔ k ∈ feed_keys feed) := by
  intro feed
  induction feed with
  | nil => simp [rows_of, feed_keys, final_write]
  | cons e f ih =>
    have hrows : rows_of (e :: f) now = prepare_row e.1 e.2 now :: rows_of f now := rfl
    rw [hrows, final_write_cons]
    cases hf : final_write (some k) (rows_of f now) with
    | some r3 =>
      have hk : k ∈ feed_keys f := ih.mp (by rw [hf]; rfl)
      simp [feed_keys] at hk ⊢
      exact Or.inr hk
    | none =>
      have hk : ¬ k ∈ feed_keys f := by
        intro hmem
        have h2 := ih.mpr hmem
        rw [hf] at h2
        cases h2
      have hkeyp : (prepare_row e.1 e.2 now).player_id = some (derived_key e.1 e.2) := rfl
      rw [hkeyp]
      simp [feed_keys] at hk ⊢
      by_cases hc : k = derived_key e.1 e.2
      · simp [keyconf, hc]
      · simp [keyconf, hc]
        exact hk

/-- A row of the table after all upserts is determined: if the upserted rows
contain a final write for its key it equals that final write, otherwise it
was already in the old table. -/
theorem mem_upsert_all_final (rows : List Row) : ∀ (tbl : List Row) (q : Row),
    (∀ r ∈ rows, r.player_id.isSome) → q ∈ upsert_all tbl rows →
    (∀ r2, final_write q.player_id rows = some r2 → q = r2) ∧
    (final_write q.player_id rows = none → q ∈ tbl) := by
  induction rows with
  | nil =>
    intro tbl q _ hq
    exact ⟨fun r2 h => by simp [final_write] at h, fun _ => hq⟩
  | cons r rs ih =>
    intro tbl q hkeys hq
    have hkeys2 : ∀ r2 ∈ rs, r2.player_id.isSome := fun r2 h => hkeys r2 (by simp [h])
    obtain ⟨ihs, ihn⟩ := ih (upsert tbl r) q hkeys2 hq
    constructor
    · intro r2 h2
      rw [final_write_cons] at h2
      cases hf : final_write q.player_id rs with
      | some r3 =>
        rw [hf] at h2
        simp at h2
        exact h2 ▸ ihs r3 hf
      | none =>
        rw [hf] at h2
        by_cases hc : keyconf q.player_id r.player_id = true
        · simp [hc] at h2
          have hq2 : q ∈ upsert tbl r := ihn hf
          rcases mem_upsert tbl r q hq2 with h3 | ⟨_, h5⟩
          · exact h2 ▸ h3
          · rw [hc] at h5
            cases h5
        · simp [hc] at h2
    · intro h2
      cases hf : final_write q.player_id rs with
      | some r3 =>
        rw [final_write_cons, hf] at h2
        simp at h2
      | none =>
        rw [final_write_cons, hf] at h2
        by_cases hc : keyconf q.player_id r.player_id = true
        · simp [hc] at h2
        · have hq2 : q ∈ upsert tbl r := ihn hf
          rcases mem_upsert tbl r q hq2 with h3 | ⟨h4, _⟩
          · subst h3
            exact absurd (keyconf_refl (hkeys q (by simp))) hc
          · exact h4

/-- C7: after any successful cache-loader run, every row of the players table
has a non-null player_id and a non-null raw-payload copy, provided the
pre-run table already satisfied the schema constraints; and the other
columns of a prepared row are null when the corresponding upstream field is
absent. -/
theorem c7_not_null_invariant (db0 : DB) (feed : List (String × PlayerRec)) (now : Int)
    (timeText : String) (hdb : ∀ r ∈ db0.players, row_not_null_ok r) :
    (∀ r ∈ (main_run db0 (Except.ok feed) now timeText none).1.players, row_not_null_ok r) ∧
    (prepare_row "A" emptyRec now).first_name = none ∧
    (prepare_row "A" emptyRec now).team = none ∧
    (prepare_row "A" emptyRec now).number = none := by
  refine ⟨?_, rfl, rfl, rfl⟩
  intro r hr
  have hpl : (main_run db0 (Except.ok feed) now timeText none).1.players =
      upsert_all db0.players (rows_of feed now) := by
    rw [main_run_ok]
  rw [hpl] at hr
  rcases mem_upsert_all (rows_of feed now) db0.players r hr with h1 | h2
  · exact hdb r h1
  · obtain ⟨kp, _, hpr⟩ := List.mem_map.mp h2
    rw [← hpr]
    exact ⟨rfl, rfl⟩

/-- Witness for C7: after a successful run over a concrete pre-populated
database, the first row of the table has present player_id and data_json. -/
theorem c7_not_null_invariant_witness :
    row_not_null_ok
      ((main_run stale_db (Except.ok sample_feed) 10 "t" none).1.players.getD 0 stale_row) :=
  (c7_not_null_invariant stale_db sample_feed 10 "t"
    (by intro r hr; simp [stale_db] at hr; subst hr; exact ⟨rfl, rfl⟩)).1
    _ (by decide)

/-- C8: on every successful run, every row whose key is a derived key of the
feed carries the run fetch timestamp in updated_at, unconditionally
overwriting whatever was stored before, including for rows that already
existed. -/
theorem c8_updated_at_overwrite (db0 : DB) (feed : List (String × PlayerRec)) (now : Int)
    (timeText : String) (k : String) (hk : k ∈ feed_keys feed) :
    ∀ r ∈ (main_run db0 (Except.ok feed) now timeText none).1.players,
      r.player_id = some k → r.updated_at = some now := by
  intro r hr hkey
  have hpl : (main_run db0 (Except.ok feed) now timeText none).1.players =
      upsert_all db0.players (rows_of feed now) := by
    rw [main_run_ok]
  rw [hpl] at hr
  have hkeys : ∀ r2 ∈ rows_of feed now, r2.player_id.isSome := by
    intro r2 h2
    obtain ⟨kp, _, hpr⟩ := List.mem_map.mp h2
    rw [← hpr]
    rfl
  obtain ⟨hsome, _⟩ := mem_upsert_all_final (rows_of feed now) db0.players r hkeys hr
  cases hf : final_write r.player_id (rows_of feed now) with
  | some r2 =>
    have heq := hsome r2 hf
    have hmem := final_write_mem r.player_id (rows_of feed now) r2 hf
    obtain ⟨kp, _, hpr⟩ := List.mem_map.mp hmem
    rw [heq, ← hpr]
    rfl
  | none =>
    rw [hkey] at hf
    have h2 := (final_write_rows_of_isSome now k feed).mpr hk
    rw [hf] at h2
    cases h2

/-- Witness for C8: a run over a database that already holds key A with
timestamp 5 leaves the overwritten first row stamped with the new fetch
time 10. -/
theorem c8_updated_at_overwrite_witness :
    ((main_run preexist_db (Except.ok sample_feed) 10 "t" none).1.players.getD 0
      stale_row).updated_at = some 10 :=
  c8_updated_at_overwrite preexist_db sample_feed 10 "t" "A" (by decide)
    _ (by decide) (by decide)

/-- A NULL key has no final write: NULL never conflicts. -/
theorem final_write_none : ∀ rows : List Row, final_write none rows = none := by
  intro rows
  induction rows with
  | nil => rfl
  | cons r rs ih =>
    rw [final_write_cons, ih]
    cases hx : r.player_id <;> rfl

/-- Every prepared row has a present key. -/
theorem rows_of_keys_isSome (feed : List (String × PlayerRec)) (now : Int) :
    ∀ r ∈ rows_of feed now, r.player_id.isSome := by
  intro r hm
  obtain ⟨kp, _, hpr⟩ := List.mem_map.mp hm
  rw [← hpr]
  rfl

/-- The rows prepared at a later fetch time are the earlier rows retimed. -/
theorem rows_of_retime (feed : List (String × PlayerRec)) (t1 t2 : Int) :
    rows_of feed t2 = (rows_of feed t1).map (retime t2) := by
  rw [rows_of, rows_of, List.map_map]
  apply List.map_congr_left
  intro kp _
  rfl

/-- Retiming changes nothing outside updated_at. -/
theorem row_eq_mod_time_retime (t : Int) (q : Row) : row_eq_mod_time q (retime t q) :=
  ⟨rfl, rfl, rfl, rfl, rfl, rfl, rfl, rfl, rfl, rfl, rfl, rfl, rfl, rfl, rfl, rfl, rfl, rfl⟩

/-- Equality modulo time is reflexive. -/
theorem row_eq_mod_time_refl (q : Row) : row_eq_mod_time q q :=
  ⟨rfl, rfl, rfl, rfl, rfl, rfl, rfl, rfl, rfl, rfl, rfl, rfl, rfl, rfl, rfl, rfl, rfl, rfl⟩

/-- When every upserted key is already in the table, the whole upsert run is
an in-place map replacing each row by the final write for its key. -/
theorem upsert_all_eq_map (rows : List Row) : ∀ tbl : List Row,
    (∀ r ∈ rows, hasKey tbl r.player_id = true) →
    upsert_all tbl rows = tbl.map (fun q => (final_write q.player_id rows).getD q) := by
  induction rows with
  | nil =>
    intro tbl _
    show tbl = tbl.map fun q => (final_write q.player_id []).getD q
    simp [final_write]
  | cons r rs ih =>
    intro tbl hall
    have hr : hasKey tbl r.player_id = true := hall r (by simp)
    have h2 : upsert tbl r =
        tbl.map (fun q => if keyconf q.player_id r.player_id then r else q) := by
      rw [upsert, if_pos hr]
    have hrs : ∀ r2 ∈ rs, hasKey (upsert tbl r) r2.player_id = true := by
      intro r2 hm
      rw [hasKey_eq_keys_any, upsert_keys_of_hasKey tbl r hr, ← hasKey_eq_keys_any]
      exact hall r2 (by simp [hm])
    have h1 : upsert_all tbl (r :: rs) = upsert_all (upsert tbl r) rs := rfl
    rw [h1, ih (upsert tbl r) hrs, h2, List.map_map]
    have h3 : ((fun q => (final_write q.player_id rs).getD q) ∘
        (fun q => if keyconf q.player_id r.player_id then r else q)) =
        (fun q => (final_write q.player_id (r :: rs)).getD q) := by
      funext q
      show (final_write (if keyconf q.player_id r.player_id then r else q).player_id rs).getD
          (if keyconf q.player_id r.player_id then r else q) =
        (final_write q.player_id (r :: rs)).getD q
      by_cases hc : keyconf q.player_id r.player_id = true
      · have hk : r.player_id = q.player_id := (keyconf_eq hc).symm
        rw [if_pos hc, hk, final_write_cons]
        cases hf : final_write q.player_id rs with
        | some r3 => simp [hf]
        | none => simp [hf, hc]
      · rw [if_neg hc, final_write_cons]
        cases hf : final_write q.player_id rs with
        | some r3 => simp [hf]
        | none => simp [hf, hc]
    rw [h3]

/-- The players table after one fault-free run. -/
theorem run_once_players (db : DB) (feed : List (String × PlayerRec)) (t : Int)
    (s : String) :
    (run_once db feed t s).players = upsert_all db.players (rows_of feed t) := by
  rw [run_once, main_run_ok]

/-- C3 (amended): running the loader twice on an unchanged feed leaves the
players table with the same row count, with every column of every row except
updated_at identical to the state after the first run; every row whose key
is a derived key of the feed has its updated_at advanced to the second fetch
time, while rows whose key is not in the feed (stale rows from earlier runs)
are unchanged entirely, including updated_at. -/
theorem c3_run_twice (db0 : DB) (feed : List (String × PlayerRec)) (t1 t2 : Int)
    (s1 s2 : String) :
    (run_once (run_once db0 feed t1 s1) feed t2 s2).players.length =
      (run_once db0 feed t1 s1).players.length ∧
    List.Forall₂
      (fun a b =>
        row_eq_mod_time a b ∧
        (∀ k, a.player_id = some k → k ∈ feed_keys feed → b.updated_at = some t2) ∧
        ((∀ k, a.player_id = some k → k ∉ feed_keys feed) → b = a))
      (run_once db0 feed t1 s1).players
      (run_once (run_once db0 feed t1 s1) feed t2 s2).players := by
  have hall : ∀ r ∈ rows_of feed t2,
      hasKey (run_once db0 feed t1 s1).players r.player_id = true := by
    intro r hm
    rw [run_once_players]
    rw [rows_of_retime feed t1 t2] at hm
    obtain ⟨r1, hr1, hr1e⟩ := List.mem_map.mp hm
    have hkeq : r.player_id = r1.player_id := by
      rw [← hr1e]
      rfl
    rw [hkeq]
    exact hasKey_upsert_all_mem (rows_of feed t1) db0.players r1 hr1
      (rows_of_keys_isSome feed t1 r1 hr1)
  have hmain : (run_once (run_once db0 feed t1 s1) feed t2 s2).players =
      (run_once db0 feed t1 s1).players.map
        (fun q => ((final_write q.player_id (rows_of feed t1)).map (retime t2)).getD q) := by
    rw [run_once_players (run_once db0 feed t1 s1) feed t2 s2,
      upsert_all_eq_map (rows_of feed t2) _ hall]
    apply List.map_congr_left
    intro q _
    rw [rows_of_retime feed t1 t2, final_write_map_retime]
  rw [hmain]
  refine ⟨List.length_map _ _, ?_⟩
  rw [List.forall₂_map_right_iff, List.forall₂_same]
  intro q hq
  have hq2 : q ∈ upsert_all db0.players (rows_of feed t1) := by
    rw [← run_once_players db0 feed t1 s1]
    exact hq
  obtain ⟨hsome, _⟩ := mem_upsert_all_final (rows_of feed t1) db0.players q
    (rows_of_keys_isSome feed t1) hq2
  cases hf : final_write q.player_id (rows_of feed t1) with
  | some r0 =>
    have hqr : q = r0 := hsome r0 hf
    rw [← hqr]
    simp only [Option.map_some', Option.getD_some]
    refine ⟨row_eq_mod_time_retime t2 q, fun k _ _ => rfl, ?_⟩
    intro hnot
    cases hkq : q.player_id with
    | none =>
      rw [hkq, final_write_none] at hf
      cases hf
    | some k =>
      have his : (final_write (some k) (rows_of feed t1)).isSome = true := by
        rw [← hkq, hf]
        rfl
      have hk : k ∈ feed_keys feed := (final_write_rows_of_isSome t1 k feed).mp his
      exact absurd hk (hnot k hkq)
  | none =>
    simp only [Option.map_none', Option.getD_none]
    refine ⟨row_eq_mod_time_refl q, ?_, fun _ => trivial⟩
    intro k hkq hk
    have his := (final_write_rows_of_isSome t1 k feed).mpr hk
    rw [← hkq, hf] at his
    cases his

/-- Witness for C3 (amended) at a concrete database and feed: the row count
is preserved across the second run. -/
theorem c3_run_twice_witness :
    (run_once (run_once stale_db sample_feed 10 "s") sample_feed 20 "s").players.length =
      (run_once stale_db sample_feed 10 "s").players.length :=
  (c3_run_twice stale_db sample_feed 10 20 "s" "s").1

/-- C3 counterexample to the claim as stated: starting from a database that
holds a stale row with key Z and timestamp 5, running the loader twice over
a feed containing only key A leaves the stale row at timestamp 5, so not
every row of the table has its updated_at advanced to the second fetch
time 20. -/
theorem c3_run_twice_counterexample :
    ¬ (∀ r ∈ (run_once (run_once stale_db sample_feed 10 "s") sample_feed 20 "s").players,
        r.updated_at = some 20) := by decide
